import Mathlib

/-!
A verification development for the numeric-encoding core of the binjs-ref
repository: the raw `f64 | null` codec and the varfloat writer of
`src/crates/binjs_io/src/bytes/float.rs`, and the content-accounting record of
`src/crates/binjs_io/src/io/statistics.rs`.

`f64` values are embedded by their IEEE-754 bit patterns, as natural numbers
below `2 ^ 64`.  The float operations the source uses (`as i32`, `as f64`,
`==`, `is_sign_positive`) are given their IEEE semantics through an
integer-valued scaling: the real value of a non-NaN pattern multiplied by
`2 ^ 1074` is always an integer, so comparisons and truncations can be carried
out exactly in `Int`.

The external varnum codec (`bytes/varnum.rs`) is not part of the sources at
hand; the few facts needed about it (its entry point, its sentinels and its
byte counts) are modelled from the spec, and are marked as such below.
-/

/-- The representation of "no float", used for `float | null`
(`const NONE_FLOAT_REPR: u64 = 0x7FF0000000000001`). -/
def NONE_FLOAT_REPR : Nat := 0x7FF0000000000001

/-- One pass of the encoding loop of `bytes_of_float`:
`buf[i] = (as_u64 % 256) as u8; as_u64 >>= 8`, producing the next `k` bytes
little-endian. -/
def leBytes : Nat → Nat → List Nat
  | 0, _ => []
  | k + 1, u => u % 256 :: leBytes k (u / 256)

/-- `bytes_of_float`: encode a `f64 | null` as 8 bytes, little-endian; `None`
is encoded as the reserved bit pattern `NONE_FLOAT_REPR`, `Some v` as the bit
pattern of `v` (the source transmutes `f64` to `u64`; here values already are
their bit patterns). -/
def bytes_of_float (value : Option Nat) : List Nat :=
  leBytes 8 (match value with
    | none => NONE_FLOAT_REPR
    | some v => v)

/-- `float_of_bytes`: decode 8 little-endian bytes to a `f64 | null`.  The
source ORs together the bytes shifted into disjoint bit ranges; since each
byte is below `256`, the ORs coincide with addition, which is how the
reassembly is written here. -/
def float_of_bytes (buf : List Nat) : Option Nat :=
  let as_u64 :=
    buf.getD 0 0 + buf.getD 1 0 * 2 ^ 8 + buf.getD 2 0 * 2 ^ 16 +
    buf.getD 3 0 * 2 ^ 24 + buf.getD 4 0 * 2 ^ 32 + buf.getD 5 0 * 2 ^ 40 +
    buf.getD 6 0 * 2 ^ 48 + buf.getD 7 0 * 2 ^ 56
  if as_u64 = NONE_FLOAT_REPR then none else some as_u64

/-- Sign bit (bit 63) of an `f64` bit pattern; `true` means the sign is
negative, so Rust's `is_sign_positive` is the negation of this. -/
def f64SignBit (x : Nat) : Bool := x / 2 ^ 63 % 2 == 1

/-- Biased exponent field (bits 52-62) of an `f64` bit pattern. -/
def f64Exp (x : Nat) : Nat := x / 2 ^ 52 % 2 ^ 11

/-- Mantissa field (bits 0-51) of an `f64` bit pattern. -/
def f64Mant (x : Nat) : Nat := x % 2 ^ 52

/-- A pattern is a NaN iff the exponent field is all ones and the mantissa is
nonzero. -/
def f64IsNaN (x : Nat) : Bool := f64Exp x == 2047 && f64Mant x != 0

/-- A pattern is finite iff the exponent field is not all ones. -/
def f64IsFinite (x : Nat) : Bool := f64Exp x != 2047

/-- A pattern is an infinity iff the exponent field is all ones and the
mantissa is zero. -/
def f64IsInfinite (x : Nat) : Bool := f64Exp x == 2047 && f64Mant x == 0

/-- The real value denoted by an `f64` bit pattern, scaled by `2 ^ 1074` so
that it is an integer.  A pattern with biased exponent `e` and mantissa field
`m` denotes `± m' * 2 ^ (e' - 1075)` where `m' = m + 2 ^ 52` and `e' = e` for
normal numbers (`e ≥ 1`), and `m' = m`, `e' = 1` for subnormals (`e = 0`);
scaling by `2 ^ 1074` turns the exponent into the natural number `e' - 1`.
An infinity pattern scales to `± 2 ^ 52 * 2 ^ 2046`, strictly beyond every
finite value, so scaled comparison remains faithful on non-NaN patterns. -/
def scaledVal (x : Nat) : Int :=
  let m : Int := (f64Mant x : Int) + (if f64Exp x = 0 then 0 else 2 ^ 52)
  let p : Nat := if f64Exp x = 0 then 0 else f64Exp x - 1
  (if f64SignBit x then -m else m) * ((2 ^ p : Nat) : Int)

/-- Rust `==` on two `f64` patterns: `false` if either operand is NaN;
otherwise two patterns compare equal iff they denote the same value
(`+0.0 == -0.0` holds, and distinct non-NaN values have distinct scaled
values). -/
def f64Eq (x y : Nat) : Bool :=
  !f64IsNaN x && !f64IsNaN y && scaledVal x == scaledVal y

/-- Truncation toward zero of `s / 2 ^ 1074` for an integer `s`: the value of
a pattern whose scaled value is `s`, truncated to an integer. -/
def truncScaled (s : Int) : Int :=
  if 0 ≤ s then ((s.toNat / 2 ^ 1074 : Nat) : Int)
  else -(((-s).toNat / 2 ^ 1074 : Nat) : Int)

/-- Rust `value as i32` on an `f64` bit pattern: NaN casts to `0`; otherwise
the value is truncated toward zero and saturated to `[-2^31, 2^31 - 1]`. -/
def f64toI32 (x : Nat) : Int :=
  if f64IsNaN x then 0
  else
    let t := truncScaled (scaledVal x)
    if t < -(2 ^ 31) then -(2 ^ 31)
    else if 2 ^ 31 - 1 < t then 2 ^ 31 - 1
    else t

/-- `⌊log₂ n⌋` by structural recursion on a fuel argument, so that it reduces
inside the kernel; fuel `n` always suffices since the argument halves each
step. -/
def log2fuel : Nat → Nat → Nat
  | 0, _ => 0
  | f + 1, n => if n ≤ 1 then 0 else log2fuel f (n / 2) + 1

/-- `⌊log₂ n⌋` (for `n ≠ 0`): the exponent of an IEEE-754 encoding. -/
def floorLog2 (n : Nat) : Nat := log2fuel n n

/-- Rust `n as f64` for an integer `n` of magnitude below `2 ^ 53` (in
particular for every `i32`): the conversion is exact, yielding the canonical
IEEE-754 bit pattern.  `0` maps to `+0.0`; a nonzero `n` with `a = |n|` and
`e = ⌊log₂ a⌋` maps to sign bit `n < 0`, biased exponent `e + 1023` and
mantissa field `a * 2 ^ (52 - e) - 2 ^ 52`. -/
def ofI32 (n : Int) : Nat :=
  if n = 0 then 0
  else
    let a := n.natAbs
    let e := floorLog2 a
    (if n < 0 then 2 ^ 63 else 0) + (e + 1023) * 2 ^ 52 + (a * 2 ^ (52 - e) - 2 ^ 52)

/-- Two's-complement wrap-around of an integer into the `i32` range (Rust
release-mode overflow semantics for `i32` arithmetic). -/
def i32Wrap (z : Int) : Int := (z + 2 ^ 31) % 2 ^ 32 - 2 ^ 31

/-- Rust `z as u32` reinterpretation of an `i32` value. -/
def u32OfI32 (z : Int) : Nat := (z % 2 ^ 32).toNat

/-- The sign-interleaving fold of `write_varfloat`'s compact-integer path:
`if n >= 0 { 2 * (n as u32) } else { 2 * ((-n + 1) as u32) - 1 }`, with Rust
release-mode wrap-around on the `i32` negation and increment and on the `u32`
product and decrement. -/
def foldI32 (n : Int) : Nat :=
  if 0 ≤ n then 2 * n.toNat % 2 ^ 32
  else (2 * u32OfI32 (i32Wrap (-n + 1)) + (2 ^ 32 - 1)) % 2 ^ 32

/-- The inverse of the sign-interleaving map as the spec words it, for
comparison with `foldI32`: even codes `2k ↦ k`, odd codes `2k+1 ↦ -(k+1)`. -/
def specUnfold (c : Nat) : Int :=
  if c % 2 = 0 then ((c / 2 : Nat) : Int) else -(((c - 1) / 2 : Nat) : Int) - 1

/-- The inverse of the fold the code actually computes: even codes `2k ↦ k`,
odd codes `2k+1 ↦ -k` (the code sends a negative `n` to `2 * (-n + 1) - 1 =
2 * (-n) + 1`). -/
def codeUnfold (c : Nat) : Int :=
  if c % 2 = 0 then ((c / 2 : Nat) : Int) else -(((c - 1) / 2 : Nat) : Int)

/-- Modelled from the spec: the external VarNum codec (`bytes/varnum.rs`, not
among the sources at hand) encodes an unsigned integer little-endian in
base-128 groups, one group per byte, the 7 data bits shifted left once with
the least-significant bit of each byte used as a continuation flag.  The
first argument is fuel; each step divides the value by 128, so fuel `v + 1`
always suffices for value `v` and the fallback base case is never reached. -/
def varnumBytesAux : Nat → Nat → List Nat
  | 0, v => [2 * (v % 128)]
  | k + 1, v =>
    if v < 128 then [2 * v]
    else (2 * (v % 128) + 1) :: varnumBytesAux k (v / 128)

/-- Modelled from the spec: the bytes the external VarNum codec emits for an
unsigned integer; values in `[0, 128)` take one byte, and each further 7 bits
take one more byte. -/
def varnumBytes (v : Nat) : List Nat := varnumBytesAux (v + 1) v

/-- `VARNUM_PREFIX_FLOAT = VARNUM_INVALID_ZERO_1`: the 2-byte sentinel
prefixing a raw float, `0b00000001 0b00000000` per the source comment — a
non-canonical 2-byte encoding of zero, which the varnum codec never emits. -/
def VARNUM_PREFIX_FLOAT : List Nat := [1, 0]

/-- Modelled from the spec: `VARNUM_NULL = VARNUM_INVALID_ZERO_2`, the fixed
3-byte reserved sentinel for `null` (a non-canonical 3-byte encoding of
zero). -/
def VARNUM_NULL : List Nat := [1, 1, 0]

/-- Modelled from the spec: the single VarNum entry point the core calls —
"encode this unsigned integer into the sink, return bytes written".  The sink
is any fallible byte writer `W` (the embedding of `T: Write`), threaded
explicitly. -/
def write_varnum {σ ε : Type} (W : σ → List Nat → Except ε σ) (s : σ)
    (v : Nat) : Except ε (σ × Nat) :=
  match W s (varnumBytes v) with
  | .error e => .error e
  | .ok s1 => .ok (s1, (varnumBytes v).length)

/-- The fast-path test of `write_varfloat`:
`as_signed_integer as f64 == value && (as_signed_integer != 0 ||
value.is_sign_positive())` with `as_signed_integer = value as i32`. -/
def compactApplies (value : Nat) : Bool :=
  f64Eq (ofI32 (f64toI32 value)) value &&
    (!(f64toI32 value == 0) || !f64SignBit value)

/-- `write_varfloat`: if the value can be represented as an `i32` (and is not
`-0.0`), fold it and delegate to the varnum codec; otherwise write the 2-byte
float prefix followed by the 8-byte raw encoding and report `8 + 2` bytes. -/
def write_varfloat {σ ε : Type} (W : σ → List Nat → Except ε σ) (s : σ)
    (value : Nat) : Except ε (σ × Nat) :=
  if compactApplies value then
    write_varnum W s (foldI32 (f64toI32 value))
  else
    match W s VARNUM_PREFIX_FLOAT with
    | .error e => .error e
    | .ok s1 =>
      match W s1 (bytes_of_float (some value)) with
      | .error e => .error e
      | .ok s2 =>
        .ok (s2, (bytes_of_float (some value)).length + VARNUM_PREFIX_FLOAT.length)

/-- `write_maybe_varfloat`: `None` writes the 3-byte null sentinel and reports
its length; `Some v` delegates to `write_varfloat`. -/
def write_maybe_varfloat {σ ε : Type} (W : σ → List Nat → Except ε σ) (s : σ)
    (value : Option Nat) : Except ε (σ × Nat) :=
  match value with
  | none =>
    match W s VARNUM_NULL with
    | .error e => .error e
    | .ok s1 => .ok (s1, VARNUM_NULL.length)
  | some v => write_varfloat W s v

/-- The `Vec<u8>` sink: appending to an in-memory buffer, which cannot fail
(error type `Empty`). -/
def vecWrite (s bs : List Nat) : Except Empty (List Nat) := .ok (s ++ bs)

/-- `varbytes_of_float`: encode into a fresh `Vec`; the `unwrap` of the source
is total because the `Vec` sink cannot fail. -/
def varbytes_of_float (value : Option Nat) : List Nat :=
  match write_maybe_varfloat vecWrite [] value with
  | .ok (s, _) => s
  | .error e => e.elim

/-- `Instances`: a newtype for `usize` counting the number of instances of
some item. -/
structure Instances where
  val : Nat

/-- The derived `Add` of `Instances`: addition of the underlying counts. -/
def Instances.add (a b : Instances) : Instances := ⟨a.val + b.val⟩

instance : Add Instances := ⟨Instances.add⟩

/-- `Sum for Instances`: fold with addition from the default (zero). -/
def Instances.sumList (l : List Instances) : Instances := l.foldl (· + ·) ⟨0⟩

/-- `ContentInfo<T>`: one field per content category, in source order. -/
structure ContentInfo (T : Type) where
  bools : T
  floats : T
  unsigned_longs : T
  string_enums : T
  property_keys : T
  identifier_names : T
  interface_names : T
  string_literals : T
  list_lengths : T

/-- `ContentInfo::with`: initialize each field by applying `f` to the
category's name (`with` is a reserved word in Lean, hence the name). -/
def ContentInfo.withF {T : Type} (f : String → T) : ContentInfo T where
  bools := f ("bools")
  floats := f ("floats")
  unsigned_longs := f ("unsigned_longs")
  string_enums := f ("string_enums")
  property_keys := f ("property_keys")
  identifier_names := f ("identifier_names")
  interface_names := f ("interface_names")
  string_literals := f ("string_literals")
  list_lengths := f ("list_lengths")

/-- `ContentInfo::iter`: the nine (category name, value) pairs in the fixed
source order. -/
def ContentInfo.iter {T : Type} (c : ContentInfo T) : List (String × T) :=
  [(("bools"), c.bools), (("floats"), c.floats),
   (("unsigned_longs"), c.unsigned_longs), (("string_enums"), c.string_enums),
   (("property_keys"), c.property_keys),
   (("identifier_names"), c.identifier_names),
   (("interface_names"), c.interface_names),
   (("string_literals"), c.string_literals),
   (("list_lengths"), c.list_lengths)]

/-- The derived `Add` of `ContentInfo`: element-wise addition. -/
def ContentInfo.add {T : Type} [Add T] (a b : ContentInfo T) : ContentInfo T where
  bools := a.bools + b.bools
  floats := a.floats + b.floats
  unsigned_longs := a.unsigned_longs + b.unsigned_longs
  string_enums := a.string_enums + b.string_enums
  property_keys := a.property_keys + b.property_keys
  identifier_names := a.identifier_names + b.identifier_names
  interface_names := a.interface_names + b.interface_names
  string_literals := a.string_literals + b.string_literals
  list_lengths := a.list_lengths + b.list_lengths

instance {T : Type} [Add T] : Add (ContentInfo T) := ⟨ContentInfo.add⟩

/-- Summing all nine fields of a `ContentInfo<Instances>`, the
`iter().map(..).sum()` pattern of the reporting code. -/
def ContentInfo.totalInstances (c : ContentInfo Instances) : Instances :=
  Instances.sumList (c.iter.map Prod.snd)

/-- Decoding the 8-byte encoding of a present pattern `x < 2 ^ 64` yields `none` exactly when `x` is the reserved pattern, and `some x` otherwise. -/
theorem float_of_bytes_bytes_of_float (x : Nat) (hx : x < 2 ^ 64) :
    float_of_bytes (bytes_of_float (some x)) =
      if x = NONE_FLOAT_REPR then none else some x := by
  have key : x % 256 + x / 256 % 256 * 2 ^ 8 + x / 256 / 256 % 256 * 2 ^ 16 +
      x / 256 / 256 / 256 % 256 * 2 ^ 24 + x / 256 / 256 / 256 / 256 % 256 * 2 ^ 32 +
      x / 256 / 256 / 256 / 256 / 256 % 256 * 2 ^ 40 +
      x / 256 / 256 / 256 / 256 / 256 / 256 % 256 * 2 ^ 48 +
      x / 256 / 256 / 256 / 256 / 256 / 256 / 256 % 256 * 2 ^ 56 = x := by
    omega
  show (if x % 256 + x / 256 % 256 * 2 ^ 8 + x / 256 / 256 % 256 * 2 ^ 16 +
      x / 256 / 256 / 256 % 256 * 2 ^ 24 + x / 256 / 256 / 256 / 256 % 256 * 2 ^ 32 +
      x / 256 / 256 / 256 / 256 / 256 % 256 * 2 ^ 40 +
      x / 256 / 256 / 256 / 256 / 256 / 256 % 256 * 2 ^ 48 +
      x / 256 / 256 / 256 / 256 / 256 / 256 / 256 % 256 * 2 ^ 56 = NONE_FLOAT_REPR then none
    else some (x % 256 + x / 256 % 256 * 2 ^ 8 + x / 256 / 256 % 256 * 2 ^ 16 +
      x / 256 / 256 / 256 % 256 * 2 ^ 24 + x / 256 / 256 / 256 / 256 % 256 * 2 ^ 32 +
      x / 256 / 256 / 256 / 256 / 256 % 256 * 2 ^ 40 +
      x / 256 / 256 / 256 / 256 / 256 / 256 % 256 * 2 ^ 48 +
      x / 256 / 256 / 256 / 256 / 256 / 256 / 256 % 256 * 2 ^ 56)) =
    if x = NONE_FLOAT_REPR then none else some x
  rw [key]

/-- With enough fuel, `log2fuel` computes the floor base-2 logarithm. -/
theorem log2fuel_spec : ∀ f n, n ≠ 0 → n ≤ f →
    2 ^ log2fuel f n ≤ n ∧ n < 2 ^ (log2fuel f n + 1) := by
  intro f
  induction f with
  | zero =>
    intro n h0 hf
    omega
  | succ f ih =>
    intro n h0 hf
    unfold log2fuel
    split
    · omega
    · have hn2 : 2 ≤ n := by omega
      obtain ⟨ha, hb⟩ := ih (n / 2) (by omega) (by omega)
      constructor
      · rw [pow_succ]
        omega
      · rw [pow_succ]
        omega

/-- The value `floorLog2 n` brackets `n` between consecutive powers of two for `n ≠ 0`. -/
theorem floorLog2_spec (n : Nat) (h0 : n ≠ 0) :
    2 ^ floorLog2 n ≤ n ∧ n < 2 ^ (floorLog2 n + 1) :=
  log2fuel_spec n n h0 (Nat.le_refl n)

/-- Truncating an exactly-scaled integer recovers the integer. -/
theorem truncScaled_mul (n : Int) : truncScaled (n * 2 ^ 1074) = n := by
  unfold truncScaled
  split <;> omega

/-- The pattern `ofI32 n` of a nonzero integer of magnitude below `2 ^ 53` is not NaN, carries the sign of `n`, and denotes exactly `n` (scaled by `2 ^ 1074`). -/
theorem ofI32_spec (n : Int) (h0 : n ≠ 0) (hlt : n.natAbs < 2 ^ 53) :
    f64IsNaN (ofI32 n) = false ∧
    f64SignBit (ofI32 n) = decide (n < 0) ∧
    scaledVal (ofI32 n) = n * 2 ^ 1074 := by
  have ha0 : n.natAbs ≠ 0 := by omega
  set a := n.natAbs with ha
  set e := floorLog2 a with he
  have h1 : 2 ^ e ≤ a := (floorLog2_spec a ha0).1
  have h2 : a < 2 ^ (e + 1) := (floorLog2_spec a ha0).2
  have he52 : e ≤ 52 := by
    by_contra hc
    have h53 : (2 : Nat) ^ 53 ≤ 2 ^ e := Nat.pow_le_pow_right (by norm_num) (by omega)
    omega
  set P := a * 2 ^ (52 - e) with hP
  have hm1 : 2 ^ 52 ≤ P := by
    have hsplit : (2 : Nat) ^ 52 = 2 ^ e * 2 ^ (52 - e) := by
      rw [← pow_add]
      congr 1
      omega
    rw [hP, hsplit]
    exact Nat.mul_le_mul_right _ h1
  have hm2 : P < 2 ^ 53 := by
    have hsplit : (2 : Nat) ^ 53 = 2 ^ (e + 1) * 2 ^ (52 - e) := by
      rw [← pow_add]
      congr 1
      omega
    rw [hP, hsplit]
    exact mul_lt_mul_of_pos_right h2 (by positivity)
  set M := P - 2 ^ 52 with hM
  have hMlt : M < 2 ^ 52 := by omega
  have hpat : ofI32 n = (if n < 0 then 2 ^ 63 else 0) + (e + 1023) * 2 ^ 52 + M := by
    rw [ofI32, if_neg h0]
  have hPcast : ((P : Nat) : Int) = (a : Int) * 2 ^ (52 - e) := by
    rw [hP]
    push_cast
    ring
  have he0 : ¬(e + 1023 = 0) := by omega
  have hmc : (M : Int) + 2 ^ 52 = (a : Int) * 2 ^ (52 - e) := by
    rw [← hPcast]
    omega
  have hexpsum : 52 - e + (e + 1023 - 1) = 1074 := by omega
  have hpow : (2 : Int) ^ (52 - e) * 2 ^ (e + 1023 - 1) = 2 ^ 1074 := by
    rw [← pow_add, hexpsum]
  by_cases hneg : n < 0
  · have hpat' : ofI32 n = 2 ^ 63 + (e + 1023) * 2 ^ 52 + M := by
      rw [hpat, if_pos hneg]
    have hexp : f64Exp (ofI32 n) = e + 1023 := by
      rw [hpat']
      unfold f64Exp
      omega
    have hmant : f64Mant (ofI32 n) = M := by
      rw [hpat']
      unfold f64Mant
      omega
    have hsign : f64SignBit (ofI32 n) = true := by
      rw [hpat']
      unfold f64SignBit
      simp only [beq_iff_eq]
      omega
    have hnan : f64IsNaN (ofI32 n) = false := by
      unfold f64IsNaN
      rw [hexp]
      have h47 : ((e + 1023 : Nat) == 2047) = false := by
        simp only [beq_eq_false_iff_ne, ne_eq]
        omega
      rw [h47, Bool.false_and]
    have han : (a : Int) = -n := by omega
    refine ⟨hnan, by rw [hsign]; exact (decide_eq_true hneg).symm, ?_⟩
    simp only [scaledVal, hexp, hmant, hsign, if_neg he0, ite_true]
    simp only [Nat.cast_pow, Nat.cast_ofNat]
    rw [hmc, han]
    simp only [neg_mul, neg_neg]
    rw [mul_assoc, hpow]
  · have hpat' : ofI32 n = 0 + (e + 1023) * 2 ^ 52 + M := by
      rw [hpat, if_neg hneg]
    have hexp : f64Exp (ofI32 n) = e + 1023 := by
      rw [hpat']
      unfold f64Exp
      omega
    have hmant : f64Mant (ofI32 n) = M := by
      rw [hpat']
      unfold f64Mant
      omega
    have hsign : f64SignBit (ofI32 n) = false := by
      rw [hpat']
      unfold f64SignBit
      simp only [beq_eq_false_iff_ne, ne_eq]
      omega
    have hnan : f64IsNaN (ofI32 n) = false := by
      unfold f64IsNaN
      rw [hexp]
      have h47 : ((e + 1023 : Nat) == 2047) = false := by
        simp only [beq_eq_false_iff_ne, ne_eq]
        omega
      rw [h47, Bool.false_and]
    have han : (a : Int) = n := by omega
    refine ⟨hnan, by rw [hsign]; exact (decide_eq_false hneg).symm, ?_⟩
    simp only [scaledVal, hexp, hmant, hsign, if_neg he0, Bool.false_eq_true, ite_false]
    simp only [Nat.cast_pow, Nat.cast_ofNat]
    rw [hmc, han, mul_assoc, hpow]

set_option exponentiation.threshold 1200 in
set_option maxRecDepth 4096 in
/-- Rust `(n as f64) as i32` is the identity on the `i32` range. -/
theorem f64toI32_ofI32 (n : Int) (h1 : -(2 ^ 31) ≤ n) (h2 : n < 2 ^ 31) :
    f64toI32 (ofI32 n) = n := by
  by_cases h0 : n = 0
  · subst h0
    decide
  · obtain ⟨hnan, hsign, hscaled⟩ := ofI32_spec n h0 (by omega)
    have hA : ¬(truncScaled (scaledVal (ofI32 n)) < -(2 ^ 31)) := by
      rw [hscaled, truncScaled_mul]
      omega
    have hB : ¬((2 : Int) ^ 31 - 1 < truncScaled (scaledVal (ofI32 n))) := by
      rw [hscaled, truncScaled_mul]
      omega
    simp only [f64toI32, hnan, Bool.false_eq_true, if_false, ite_false, if_neg hA, if_neg hB]
    rw [hscaled, truncScaled_mul]

set_option exponentiation.threshold 1200 in
set_option maxRecDepth 4096 in
/-- Every `f64` that is the exact image of an `i32` passes the compact-path test of `write_varfloat` (for `n = 0` the image is `+0.0`, whose sign is positive). -/
theorem compactApplies_ofI32 (n : Int) (h1 : -(2 ^ 31) ≤ n) (h2 : n < 2 ^ 31) :
    compactApplies (ofI32 n) = true := by
  unfold compactApplies
  rw [f64toI32_ofI32 n h1 h2]
  by_cases h0 : n = 0
  · subst h0
    decide
  · obtain ⟨hnan, hsign, hscaled⟩ := ofI32_spec n h0 (by omega)
    have hEq : f64Eq (ofI32 n) (ofI32 n) = true := by
      unfold f64Eq
      rw [hnan]
      simp
    rw [hEq]
    have hne : ((n == 0) : Bool) = false := by
      simp only [beq_eq_false_iff_ne, ne_eq]
      exact h0
    rw [hne]
    simp

/-- The raw codec always outputs exactly 8 bytes. -/
theorem bytes_of_float_length (v : Option Nat) : (bytes_of_float v).length = 8 := by
  cases v <;> rfl

/-- The fold always produces a `u32` value. -/
theorem foldI32_lt (n : Int) : foldI32 n < 2 ^ 32 := by
  unfold foldI32 u32OfI32 i32Wrap
  split <;> omega

/-- The varnum codec emits at least one byte. -/
theorem varnumBytesAux_len_pos (k v : Nat) : 1 ≤ (varnumBytesAux k v).length := by
  match k with
  | 0 => simp [varnumBytesAux]
  | k + 1 =>
    unfold varnumBytesAux
    split <;> simp

/-- With enough fuel, a value below `128 ^ (k + 1)` takes at most `k + 1` varnum bytes. -/
theorem varnumBytesAux_len_le :
    ∀ k fuel v, v < 128 ^ (k + 1) → k + 1 ≤ fuel →
      (varnumBytesAux fuel v).length ≤ k + 1 := by
  intro k
  induction k with
  | zero =>
    intro fuel v hv hf
    match fuel with
    | f + 1 =>
      unfold varnumBytesAux
      rw [if_pos (by simpa using hv)]
      simp
  | succ k ih =>
    intro fuel v hv hf
    match fuel with
    | f + 1 =>
      unfold varnumBytesAux
      split
      · simp
      · simp only [List.length_cons]
        have hdiv : v / 128 < 128 ^ (k + 1) := by
          rw [Nat.div_lt_iff_lt_mul (by norm_num)]
          calc v < 128 ^ (k + 1 + 1) := hv
          _ = 128 ^ (k + 1) * 128 := by rw [pow_succ]
        have hrec := ih f (v / 128) hdiv (by omega)
        omega

/-- A value below `2 ^ 35` takes at most 5 varnum bytes. -/
theorem varnumBytes_len_le_five (v : Nat) (hv : v < 2 ^ 35) :
    (varnumBytes v).length ≤ 5 := by
  by_cases h : v < 128
  · rw [show varnumBytes v =
      if v < 128 then [2 * v] else (2 * (v % 128) + 1) :: varnumBytesAux v (v / 128) from rfl]
    rw [if_pos h]
    simp
  · exact varnumBytesAux_len_le 4 (v + 1) v (by omega) (by omega)

/-- On the `Vec` sink, `write_varnum` appends the varnum bytes and reports their count. -/
theorem write_varnum_vec (s : List Nat) (v : Nat) :
    write_varnum vecWrite s v = .ok (s ++ varnumBytes v, (varnumBytes v).length) := rfl

/-- On the `Vec` sink, `write_varfloat` appends either the varnum of the folded `i32` (compact path) or the 2-byte prefix plus the 8 raw bytes, reporting 10 (raw path). -/
theorem write_varfloat_vec (s : List Nat) (v : Nat) :
    write_varfloat vecWrite s v =
      if compactApplies v then
        .ok (s ++ varnumBytes (foldI32 (f64toI32 v)),
          (varnumBytes (foldI32 (f64toI32 v))).length)
      else
        .ok (s ++ (VARNUM_PREFIX_FLOAT ++ bytes_of_float (some v)), 10) := by
  by_cases h : compactApplies v
  · rw [if_pos h]
    unfold write_varfloat
    rw [if_pos h]
    exact write_varnum_vec s (foldI32 (f64toI32 v))
  · rw [if_neg h]
    unfold write_varfloat
    rw [if_neg h]
    show Except.ok (s ++ VARNUM_PREFIX_FLOAT ++ bytes_of_float (some v),
      (bytes_of_float (some v)).length + VARNUM_PREFIX_FLOAT.length) = _
    rw [bytes_of_float_length, List.append_assoc]
    rfl

/-- On the `Vec` sink, `write_maybe_varfloat none` appends the 3-byte null sentinel and reports 3. -/
theorem write_maybe_varfloat_vec_none (s : List Nat) :
    write_maybe_varfloat vecWrite s none = .ok (s ++ VARNUM_NULL, 3) := rfl

/-- C1: for every `f64` bit pattern `x` that is finite, an infinity, or negative zero (any non-NaN pattern is such), `float_of_bytes (bytes_of_float (some x))` returns `some x` bit-identically — in particular `-0.0` decodes as `-0.0` — and `float_of_bytes (bytes_of_float none)` returns `none`. -/
theorem claim_C1 :
    (∀ x : Nat, x < 2 ^ 64 → (f64IsFinite x || f64IsInfinite x) = true →
      float_of_bytes (bytes_of_float (some x)) = some x) ∧
    float_of_bytes (bytes_of_float none) = none := by
  constructor
  · intro x hx hfin
    have hne : x ≠ NONE_FLOAT_REPR := by
      intro h
      rw [h] at hfin
      exact absurd hfin (by decide)
    rw [float_of_bytes_bytes_of_float x hx, if_neg hne]
  · decide

/-- C1 witness: instantiated at the pattern of `-0.0` (`2 ^ 63`), which decodes to itself, not to `+0.0`. -/
theorem claim_C1_witness : float_of_bytes (bytes_of_float (some (2 ^ 63))) = some (2 ^ 63) :=
  claim_C1.1 (2 ^ 63) (by decide) (by decide)

/-- C2 counterexample: the sign-interleaving fold the code computes maps `-1` to `3`, not `1` as claimed, and the spec-defined inverse (even `2k ↦ k`, odd `2k+1 ↦ -(k+1)`) applied to `fold (-1)` yields `-2`, not `-1`. -/
theorem claim_C2_cex :
    foldI32 (-1) = 3 ∧ ¬ foldI32 (-1) = 1 ∧ specUnfold (foldI32 (-1)) = -2 := by
  refine ⟨by decide, by decide, by decide⟩

/-- C2 (amended): the fold satisfies `fold 0 = 0`, `fold 1 = 2` and `fold (-1) = 3`, and for every `n` in `[-1000, 1000]`, applying the inverse of the map the code actually computes (even codes `2k ↦ k`, odd codes `2k+1 ↦ -k`) to `fold n` yields `n`. -/
theorem claim_C2 :
    foldI32 0 = 0 ∧ foldI32 1 = 2 ∧ foldI32 (-1) = 3 ∧
    ∀ n : Int, -1000 ≤ n → n ≤ 1000 → codeUnfold (foldI32 n) = n := by
  refine ⟨by decide, by decide, by decide, ?_⟩
  intro n h1 h2
  by_cases h : 0 ≤ n
  · have hf : foldI32 n = 2 * n.toNat := by
      unfold foldI32
      rw [if_pos h]
      omega
    rw [hf]
    unfold codeUnfold
    rw [if_pos (by omega)]
    omega
  · have hf : foldI32 n = 2 * (-n + 1).toNat - 1 := by
      unfold foldI32 u32OfI32 i32Wrap
      rw [if_neg h]
      omega
    rw [hf]
    unfold codeUnfold
    rw [if_neg (by omega)]
    omega

/-- C2 witness: the amended round trip at `n = -5`. -/
theorem claim_C2_witness : codeUnfold (foldI32 (-5)) = -5 :=
  claim_C2.2.2.2 (-5) (by decide) (by decide)

/-- C3: in the compact-integer path of `write_varfloat` the signed-to-unsigned fold computes exactly the spec formula — a non-negative 32-bit `n` maps to `2 * n` and a negative `n` maps to `2 * (-n + 1) - 1`, as a `u32` (i.e. reduced `mod 2 ^ 32`, which only matters at `i32::MIN` where the formula exceeds `u32::MAX`). -/
theorem claim_C3 : ∀ n : Int, -(2 ^ 31) ≤ n → n < 2 ^ 31 →
    (0 ≤ n → (foldI32 n : Int) = 2 * n) ∧
    (n < 0 → (foldI32 n : Int) = (2 * (-n + 1) - 1) % 2 ^ 32 ∧
      (-(2 ^ 31) < n → (foldI32 n : Int) = 2 * (-n + 1) - 1)) := by
  intro n h1 h2
  constructor
  · intro h
    unfold foldI32
    rw [if_pos h]
    omega
  · intro h
    have hf : foldI32 n = (2 * u32OfI32 (i32Wrap (-n + 1)) + (2 ^ 32 - 1)) % 2 ^ 32 := by
      unfold foldI32
      rw [if_neg (by omega)]
    unfold u32OfI32 i32Wrap at hf
    constructor
    · rw [hf]; omega
    · intro h3; rw [hf]; omega

/-- C3 witness: the exact formula at `n = -3`. -/
theorem claim_C3_witness : (foldI32 (-3) : Int) = 2 * (-(-3) + 1) - 1 :=
  ((claim_C3 (-3) (by decide) (by decide)).2 (by decide)).2 (by decide)

set_option exponentiation.threshold 1300 in
set_option maxRecDepth 8192 in
/-- C4: `write_varfloat v` takes the compact-integer path (its output is the varnum of the folded value) iff `n = (v as i32)` satisfies `(n as f64) == v` and (`n ≠ 0` or `v` is sign-positive); every 32-bit signed integer round-trips through `f64` and its encoding is the varnum of the folded value, at most 5 bytes; `write_varfloat (-0.0)` takes the 10-byte raw path. -/
theorem claim_C4 :
    (∀ v : Nat, compactApplies v = true ↔
      write_varfloat vecWrite [] v =
        .ok (varnumBytes (foldI32 (f64toI32 v)),
          (varnumBytes (foldI32 (f64toI32 v))).length)) ∧
    (∀ n : Int, -(2 ^ 31) ≤ n → n < 2 ^ 31 →
      f64toI32 (ofI32 n) = n ∧
      write_varfloat vecWrite [] (ofI32 n) =
        .ok (varnumBytes (foldI32 n), (varnumBytes (foldI32 n)).length) ∧
      (varnumBytes (foldI32 n)).length ≤ 5) ∧
    write_varfloat vecWrite ([] : List Nat) (2 ^ 63) =
      .ok (VARNUM_PREFIX_FLOAT ++ bytes_of_float (some (2 ^ 63)), 10) := by
  refine ⟨?_, ?_, ?_⟩
  · intro v
    rw [write_varfloat_vec]
    constructor
    · intro h
      rw [if_pos h, List.nil_append]
    · intro h
      by_contra hc
      rw [if_neg hc] at h
      simp only [Except.ok.injEq, Prod.mk.injEq] at h
      have h5 : (varnumBytes (foldI32 (f64toI32 v))).length ≤ 5 :=
        varnumBytes_len_le_five _ (by have := foldI32_lt (f64toI32 v); omega)
      omega
  · intro n h1 h2
    have ht := f64toI32_ofI32 n h1 h2
    have hcc := compactApplies_ofI32 n h1 h2
    refine ⟨ht, ?_, varnumBytes_len_le_five _ (by have := foldI32_lt n; omega)⟩
    rw [write_varfloat_vec, if_pos hcc, ht, List.nil_append]
  · rw [write_varfloat_vec, if_neg (by decide), List.nil_append]

set_option exponentiation.threshold 1300 in
set_option maxRecDepth 8192 in
/-- C4 witness: the integer round trip and the 5-byte bound at `n = 7`. -/
theorem claim_C4_witness :
    f64toI32 (ofI32 7) = 7 ∧ (varnumBytes (foldI32 7)).length ≤ 5 := by
  have h := claim_C4.2.1 7 (by decide) (by decide)
  exact ⟨h.1, h.2.2⟩

set_option exponentiation.threshold 1300 in
set_option maxRecDepth 8192 in
/-- C5: the count returned by `write_maybe_varfloat` always equals the number of bytes appended to the sink; `none` writes the fixed 3-byte null sentinel and returns 3; a compact-integer value writes the varnum of the folded integer (1 to 5 bytes); any other present value writes the 2-byte prefix plus the 8-byte buffer and returns 10; the sequence `[some 5.0, none, some (-3.0), some 2.5]` yields lengths `[1, 3, 1, 10]`. -/
theorem claim_C5 :
    (∀ (s : List Nat) (v : Option Nat), ∃ bs,
      write_maybe_varfloat vecWrite s v = .ok (s ++ bs, bs.length)) ∧
    (∀ s : List Nat, write_maybe_varfloat vecWrite s none = .ok (s ++ VARNUM_NULL, 3)) ∧
    (∀ (s : List Nat) (v : Nat), compactApplies v = true →
      write_maybe_varfloat vecWrite s (some v) =
        .ok (s ++ varnumBytes (foldI32 (f64toI32 v)),
          (varnumBytes (foldI32 (f64toI32 v))).length) ∧
      1 ≤ (varnumBytes (foldI32 (f64toI32 v))).length ∧
      (varnumBytes (foldI32 (f64toI32 v))).length ≤ 5) ∧
    (∀ (s : List Nat) (v : Nat), compactApplies v = false →
      write_maybe_varfloat vecWrite s (some v) =
        .ok (s ++ (VARNUM_PREFIX_FLOAT ++ bytes_of_float (some v)), 10)) ∧
    ((varbytes_of_float (some (ofI32 5))).length = 1 ∧
     (varbytes_of_float none).length = 3 ∧
     (varbytes_of_float (some (ofI32 (-3)))).length = 1 ∧
     (varbytes_of_float (some 0x4004000000000000)).length = 10) := by
  refine ⟨?_, ?_, ?_, ?_, by decide, by decide, by decide, by decide⟩
  · intro s v
    cases v with
    | none => exact ⟨VARNUM_NULL, rfl⟩
    | some x =>
      show ∃ bs, write_varfloat vecWrite s x = .ok (s ++ bs, bs.length)
      rw [write_varfloat_vec]
      by_cases hc : compactApplies x
      · rw [if_pos hc]
        exact ⟨varnumBytes (foldI32 (f64toI32 x)), rfl⟩
      · rw [if_neg hc]
        refine ⟨VARNUM_PREFIX_FLOAT ++ bytes_of_float (some x), ?_⟩
        simp [bytes_of_float_length, VARNUM_PREFIX_FLOAT]
  · intro s
    exact write_maybe_varfloat_vec_none s
  · intro s v hc
    refine ⟨?_, varnumBytesAux_len_pos _ _,
      varnumBytes_len_le_five _ (by have := foldI32_lt (f64toI32 v); omega)⟩
    show write_varfloat vecWrite s v = _
    rw [write_varfloat_vec, if_pos hc]
  · intro s v hc
    show write_varfloat vecWrite s v = _
    rw [write_varfloat_vec, if_neg (by rw [hc]; exact Bool.false_ne_true)]

set_option exponentiation.threshold 1300 in
set_option maxRecDepth 8192 in
/-- C5 witness: the raw-path shape at `-0.0` (pattern `2 ^ 63`), which fails the compact test. -/
theorem claim_C5_witness :
    write_maybe_varfloat vecWrite ([] : List Nat) (some (2 ^ 63)) =
      .ok ([] ++ (VARNUM_PREFIX_FLOAT ++ bytes_of_float (some (2 ^ 63))), 10) :=
  claim_C5.2.2.2.1 [] (2 ^ 63) (by decide)

/-- C6: `ContentInfo::with f` followed by `iter` yields exactly 9 pairs, in the fixed order bools, floats, unsigned_longs, string_enums, property_keys, identifier_names, interface_names, string_literals, list_lengths, each pair's value being `f` applied to that pair's name. -/
theorem claim_C6 : ∀ (T : Type) (f : String → T),
    ((ContentInfo.withF f).iter).length = 9 ∧
    (ContentInfo.withF f).iter =
      [(("bools"), f ("bools")), (("floats"), f ("floats")),
       (("unsigned_longs"), f ("unsigned_longs")),
       (("string_enums"), f ("string_enums")),
       (("property_keys"), f ("property_keys")),
       (("identifier_names"), f ("identifier_names")),
       (("interface_names"), f ("interface_names")),
       (("string_literals"), f ("string_literals")),
       (("list_lengths"), f ("list_lengths"))] ∧
    ∀ p ∈ (ContentInfo.withF f).iter, p.2 = f p.1 := by
  intro T f
  refine ⟨rfl, rfl, ?_⟩
  intro p hp
  simp only [ContentInfo.iter, ContentInfo.withF, List.mem_cons, List.not_mem_nil, or_false] at hp
  rcases hp with h | h | h | h | h | h | h | h | h <;> subst h <;> rfl

/-- C7: summing the nine fields of the element-wise sum of two `ContentInfo Instances` values equals the sum of the two original nine-field totals. -/
theorem claim_C7 : ∀ a b : ContentInfo Instances,
    ContentInfo.totalInstances (a + b) =
      ContentInfo.totalInstances a + ContentInfo.totalInstances b := by
  intro a b
  simp only [ContentInfo.totalInstances, Instances.sumList, ContentInfo.iter,
    HAdd.hAdd, Add.add, ContentInfo.add, Instances.add, List.map, List.foldl]
  congr 1
  simp only [Nat.add_eq]
  omega

/-- C8: `write_maybe_varfloat` returns an error only when an underlying sink write returns that error — no input fails at the domain level — and on the `Vec` sink every `Option` input succeeds, so `varbytes_of_float` is total and its `unwrap` never panics. -/
theorem claim_C8 :
    (∀ (σ ε : Type) (W : σ → List Nat → Except ε σ) (s : σ) (v : Option Nat) (e : ε),
      write_maybe_varfloat W s v = .error e → ∃ s2 bs, W s2 bs = .error e) ∧
    (∀ v : Option Nat, ∃ p, write_maybe_varfloat vecWrite ([] : List Nat) v = .ok p ∧
      varbytes_of_float v = p.1) := by
  constructor
  · intro σ ε W s v e h
    cases v with
    | none =>
      unfold write_maybe_varfloat at h
      cases hw : W s VARNUM_NULL with
      | error e1 =>
        rw [hw] at h
        simp only [Except.error.injEq] at h
        exact ⟨s, VARNUM_NULL, by rw [hw, h]⟩
      | ok s1 =>
        rw [hw] at h
        exact absurd h (by simp)
    | some x =>
      replace h : write_varfloat W s x = Except.error e := h
      unfold write_varfloat at h
      by_cases hc : compactApplies x
      · rw [if_pos hc] at h
        unfold write_varnum at h
        cases hw : W s (varnumBytes (foldI32 (f64toI32 x))) with
        | error e1 =>
          rw [hw] at h
          simp only [Except.error.injEq] at h
          exact ⟨s, varnumBytes (foldI32 (f64toI32 x)), by rw [hw, h]⟩
        | ok s1 =>
          rw [hw] at h
          exact absurd h (by simp)
      · rw [if_neg hc] at h
        cases hw : W s VARNUM_PREFIX_FLOAT with
        | error e1 =>
          rw [hw] at h
          simp only [Except.error.injEq] at h
          exact ⟨s, VARNUM_PREFIX_FLOAT, by rw [hw, h]⟩
        | ok s1 =>
          rw [hw] at h
          replace h : (match W s1 (bytes_of_float (some x)) with
            | Except.error e2 => Except.error e2
            | Except.ok s2 =>
              Except.ok (s2,
                (bytes_of_float (some x)).length + VARNUM_PREFIX_FLOAT.length)) =
              Except.error e := h
          cases hw2 : W s1 (bytes_of_float (some x)) with
          | error e1 =>
            rw [hw2] at h
            simp only [Except.error.injEq] at h
            exact ⟨s1, bytes_of_float (some x), by rw [hw2, h]⟩
          | ok s2 =>
            rw [hw2] at h
            exact absurd h (by simp)
  · intro v
    cases hr : write_maybe_varfloat vecWrite ([] : List Nat) v with
    | error e => exact e.elim
    | ok p =>
      obtain ⟨s1, n1⟩ := p
      refine ⟨(s1, n1), rfl, ?_⟩
      unfold varbytes_of_float
      rw [hr]

/-- C8 witness: instantiated at a sink that fails with error `7`, whose failing write the theorem recovers. -/
theorem claim_C8_witness :
    ∃ (s2 : Unit) (bs : List Nat),
      (fun (_ : Unit) (_ : List Nat) => (Except.error 7 : Except Nat Unit)) s2 bs =
        Except.error 7 :=
  claim_C8.1 Unit Nat (fun _ _ => Except.error 7) () none 7 rfl

/-- C9: encoding the present value whose bit pattern is the reserved constant produces exactly the same 8-byte buffer as encoding `none`, so that buffer decodes to `none`; and it is the unique pattern below `2 ^ 64` whose present encoding decodes as absent. -/
theorem claim_C9 :
    bytes_of_float (some NONE_FLOAT_REPR) = bytes_of_float none ∧
    float_of_bytes (bytes_of_float (some NONE_FLOAT_REPR)) = none ∧
    ∀ x : Nat, x < 2 ^ 64 →
      (float_of_bytes (bytes_of_float (some x)) = none ↔ x = NONE_FLOAT_REPR) := by
  refine ⟨rfl, by decide, ?_⟩
  intro x hx
  rw [float_of_bytes_bytes_of_float x hx]
  constructor
  · intro h
    by_contra hne
    rw [if_neg hne] at h
    exact Option.noConfusion h
  · intro h
    rw [if_pos h]

/-- C9 witness: the uniqueness equivalence instantiated at the reserved pattern itself. -/
theorem claim_C9_witness :
    float_of_bytes (bytes_of_float (some NONE_FLOAT_REPR)) = none ↔
      NONE_FLOAT_REPR = NONE_FLOAT_REPR :=
  claim_C9.2.2 NONE_FLOAT_REPR (by decide)

set_option exponentiation.threshold 1300 in
set_option maxRecDepth 8192 in
/-- C10 counterexample: at `v = i32::MIN as f64` the compact path is taken but `-n` overflows `i32` (`-(f64toI32 v)` exceeds `i32::MAX`), and at `v = (i32::MIN + 1) as f64` the compact path is taken but the product `2 * ((-n + 1) as u32)` overflows `u32`. -/
theorem claim_C10_cex :
    compactApplies (ofI32 (-(2 ^ 31))) = true ∧
    f64toI32 (ofI32 (-(2 ^ 31))) = -(2 ^ 31) ∧
    ¬(-(f64toI32 (ofI32 (-(2 ^ 31)))) ≤ 2 ^ 31 - 1) ∧
    compactApplies (ofI32 (-(2 ^ 31) + 1)) = true ∧
    ¬(2 * u32OfI32 (i32Wrap (-(f64toI32 (ofI32 (-(2 ^ 31) + 1))) + 1)) ≤ 2 ^ 32 - 1) := by
  decide

/-- C10 (amended): for every `f64` pattern `v` taking the compact-integer fast path with negative `n = (v as i32)` and `n ≥ i32::MIN + 2`, the negation `-n` and the increment `-n + 1` stay within `i32`, the product `2 * ((-n + 1) as u32)` stays within `u32`, and the fold computes `2 * (-n + 1) - 1` without wrapping; the two excluded inputs do overflow. -/
theorem claim_C10 :
    ∀ v : Nat, compactApplies v = true → f64toI32 v < 0 →
      -(2 ^ 31) + 2 ≤ f64toI32 v →
      -(f64toI32 v) ≤ 2 ^ 31 - 1 ∧
      -(f64toI32 v) + 1 ≤ 2 ^ 31 - 1 ∧
      2 * u32OfI32 (i32Wrap (-(f64toI32 v) + 1)) ≤ 2 ^ 32 - 1 ∧
      foldI32 (f64toI32 v) = (2 * (-(f64toI32 v) + 1) - 1).toNat := by
  intro v hc hneg hge
  unfold foldI32 u32OfI32 i32Wrap
  rw [if_neg (by omega)]
  refine ⟨by omega, by omega, by omega, by omega⟩

set_option exponentiation.threshold 1300 in
set_option maxRecDepth 8192 in
/-- C10 witness: the in-range fold arithmetic at `v = -3.0`. -/
theorem claim_C10_witness :
    foldI32 (f64toI32 (ofI32 (-3))) = (2 * (-(f64toI32 (ofI32 (-3))) + 1) - 1).toNat :=
  (claim_C10 (ofI32 (-3)) (by decide) (by decide) (by decide)).2.2.2
